import Mathlib

/-!
Shallow embedding of `datasets/ucf101/producer.py`: the `DataSet` catalog
(manifest rows, class vocabulary, sample filter, train/test split), the
batch generator (`frame_generator` and one iteration of its loop), the
frame-list rescaler (`rescale_list`) and the prediction-ranking utility
(`print_class_from_prediction`), together with theorems settling the
specification claims about them.

External collaborators (file reading, globbing, image decoding, the
one-hot primitive, the random source) are passed in as parameters or
modelled from their documented semantics, as the spec prescribes.
-/

deriving instance DecidableEq for Except

namespace Producer

/-- A row of the data manifest `data_file.csv`: fields `x[0] = split`,
`x[1] = class label`, `x[2] = clip id`, `x[3] = frame count`. -/
structure Sample where
  split : String
  label : String
  clip : String
  frames : Nat
deriving DecidableEq

/-- `DataSet.get_classes`: `sorted(set([item[1] for item in self.data]))`,
truncated to the first `class_limit` entries when a limit is set. -/
def get_classes (data : List Sample) (class_limit : Option Nat) : List String :=
  let classes := List.insertionSort (· ≤ ·) (data.map Sample.label).dedup
  match class_limit with
  | some n => classes.take n
  | none => classes

/-- `DataSet.sample_filter`: keep a row when
`int(x[3]) >= seq_length and int(x[3]) <= max_frames and x[1] in classes`. -/
def sample_filter (seq_length max_frames : Nat) (classes : List String) (x : Sample) : Bool :=
  decide (seq_length ≤ x.frames) && decide (x.frames ≤ max_frames) && classes.contains x.label

/-- The catalog state built by `DataSet.__init__`. -/
structure DataSet where
  seq_length : Nat
  class_limit : Option Nat
  max_frames : Nat
  data : List Sample
  classes : List String
  image_shape : List Nat
deriving DecidableEq

/-- `DataSet.__init__`: store the configuration, set `max_frames = 300`,
compute the class vocabulary from the raw (unfiltered) manifest, then
filter the data with `clean_data`. The manifest itself is read from disk
by `get_data` (an external collaborator); here it is the parameter `raw`.
The constructor performs no validation of its arguments. -/
def DataSet.make (seq_length : Nat) (nb_classes : Option Nat) (input_shape : List Nat)
    (raw : List Sample) : DataSet :=
  let classes := get_classes raw nb_classes
  let cleaned := raw.filter (sample_filter seq_length 300 classes)
  ⟨seq_length, nb_classes, 300, cleaned, classes, input_shape⟩

/-- `DataSet.split_train_test`: the two `filter` passes over `self.data`. -/
def DataSet.split_train_test (ds : DataSet) : List Sample × List Sample :=
  (ds.data.filter (fun x => x.split == "train"), ds.data.filter (fun x => x.split == "test"))

/-- Modelled from the spec: the external one-hot collaborator
(`keras.utils.to_categorical`), a primitive mapping an index and a
cardinality to a binary vector with a single 1 at that index; the source
treats it as a black box. -/
def to_categorical (i n : Nat) : List Nat :=
  (List.range n).map (fun j => if j = i then 1 else 0)

/-- `DataSet.get_class_one_hot`: `self.classes.index(class_str)` (raises
`ValueError` when the label is absent) followed by `to_categorical`. -/
def get_class_one_hot (classes : List String) (class_str : String) :
    Except String (List Nat) :=
  if class_str ∈ classes then
    Except.ok (to_categorical (classes.indexOf class_str) classes.length)
  else Except.error "ValueError"

/-- Helper for `takeEvery`: walk the list with a countdown `c` of elements
still to be skipped before the next one is taken. -/
def takeEveryAux {α : Type*} (skip : Nat) : List α → Nat → List α
  | [], _ => []
  | a :: l, 0 => a :: takeEveryAux skip l (skip - 1)
  | _ :: l, c + 1 => takeEveryAux skip l c

/-- Every `skip`-th element of a list starting at index 0: the comprehension
`[input_list[i] for i in range(0, len(input_list), skip)]` (for `skip ≥ 1`). -/
def takeEvery {α : Type*} (skip : Nat) (l : List α) : List α :=
  takeEveryAux skip l 0

/-- `DataSet.rescale_list`: assert `len(input_list) >= size`, let
`skip = len(input_list) // size` (a `ZeroDivisionError` when `size = 0`),
take every `skip`-th element, truncate to the first `size` elements. -/
def rescale_list {α : Type*} (input_list : List α) (size : Nat) : Except String (List α) :=
  if input_list.length < size then
    Except.error "AssertionError"
  else if size = 0 then
    Except.error "ZeroDivisionError"
  else
    Except.ok ((takeEvery (input_list.length / size) input_list).take size)

/-- The state captured by one `frame_generator` invocation: the data it
draws from (resolved once, before the `while 1` loop) and the batch size. -/
structure GenState where
  data : List Sample
  batch_size : Nat
deriving DecidableEq

/-- Construction of the generator: `train, test = self.split_train_test()`
then `data = train if train_test == 'train' else test`. -/
def frame_generator (ds : DataSet) (batch_size : Nat) (train_test : String) : GenState :=
  ⟨if train_test = "train" then ds.split_train_test.1 else ds.split_train_test.2, batch_size⟩

/-- Modelled from the spec: `random.sample` draws `k` elements without
replacement. The random source is abstracted as a stream `rand` of
naturals, `rand step` choosing a position among the elements still
available at step `step`. -/
def sampleDraw {α : Type*} : List α → Nat → (Nat → Nat) → Nat → List α
  | _, 0, _, _ => []
  | [], _ + 1, _, _ => []
  | a :: l, k + 1, rand, step =>
    let j := rand step % (a :: l).length
    (a :: l).get ⟨j, Nat.mod_lt _ (Nat.succ_pos _)⟩ ::
      sampleDraw ((a :: l).eraseIdx j) k rand (step + 1)

/-- `random.sample(population, k)`: raises `ValueError` when
`k > len(population)`, otherwise performs `k` draws without replacement. -/
def randomSample {α : Type*} (population : List α) (k : Nat) (rand : Nat → Nat) :
    Except String (List α) :=
  if population.length < k then Except.error "ValueError"
  else Except.ok (sampleDraw population k rand 0)

/-- `DataSet.build_image_sequence`: apply the external image decoder
(`process_image`, a collaborator) to every frame path. -/
def build_image_sequence (process_image : String → List Nat) (frames : List String) :
    List (List Nat) :=
  frames.map process_image

/-- One iteration of the `while 1` loop of `frame_generator`: draw
`batch_size` samples, and for each one resolve its frame paths (`framesOf`,
the external `get_frames_for_sample` lookup), rescale them to `seq_length`,
decode them, and one-hot its label. Any error aborts the whole batch. -/
def nextBatch (ds : DataSet) (g : GenState) (rand : Nat → Nat)
    (framesOf : Sample → List String) (process_image : String → List Nat) :
    Except String (List (Sample × List (List Nat) × List Nat)) := do
  let samples ← randomSample g.data g.batch_size rand
  samples.mapM (fun s => do
    let sampled ← rescale_list (framesOf s) ds.seq_length
    let y ← get_class_one_hot ds.classes s.label
    pure (s, build_image_sequence process_image sampled, y))

/-- Python dict assignment `d[k] = v`: overwrite in place when the key is
present (keeping its position), append otherwise. -/
def dictUpdate : List (String × ℚ) → String → ℚ → List (String × ℚ)
  | [], k, v => [(k, v)]
  | (k0, v0) :: d, k, v =>
    if k0 = k then (k0, v) :: d else (k0, v0) :: dictUpdate d k v

/-- The comparison used by
`sorted(label_predictions.items(), key=operator.itemgetter(1), reverse=True)`:
descending by score. Prediction scores are modelled as rationals; the
source only compares them and tests them against zero. -/
def predGE (p q : String × ℚ) : Prop := q.2 ≤ p.2

instance : DecidableRel predGE := fun p q => inferInstanceAs (Decidable (q.2 ≤ p.2))

instance : IsTotal (String × ℚ) predGE := ⟨fun p q => le_total q.2 p.2⟩

instance : IsTrans (String × ℚ) predGE := ⟨fun _ _ _ h1 h2 => le_trans h2 h1⟩

/-- `DataSet.print_class_from_prediction`: build the label-to-score dict
from `enumerate(classes)` with `predictions[i]` (an `IndexError` when
`predictions` is shorter than `classes`), sort the items descending by
score (Python's sort is stable, and `reverse=True` keeps equal scores in
insertion order), then keep entries while `i <= nb_to_return - 1` and the
score is nonzero. The returned list is the printed `(label, score)` pairs. -/
def print_class_from_prediction (classes : List String) (predictions : List ℚ)
    (nb_to_return : Nat) : Except String (List (String × ℚ)) :=
  if classes.length ≤ predictions.length then
    let lp := (classes.zip predictions).foldl (fun d kv => dictUpdate d kv.1 kv.2) []
    Except.ok (((List.insertionSort predGE lp).take nb_to_return).takeWhile
      (fun p => decide (p.2 ≠ 0)))
  else Except.error "IndexError"

/-! ### Rescale (`rescale_list`) -/

theorem takeEveryAux_getElem? {α : Type*} (sk : Nat) (l : List α) :
    ∀ (c i : Nat), (takeEveryAux (sk + 1) l c)[i]? = l[c + i * (sk + 1)]? := by
  induction l with
  | nil => intro c i; simp [takeEveryAux]
  | cons a l ih =>
    intro c i
    cases c with
    | zero =>
      cases i with
      | zero => simp [takeEveryAux]
      | succ i =>
        have h1 : 0 + (i + 1) * (sk + 1) = (sk + i * (sk + 1)) + 1 := by ring
        simp only [takeEveryAux, Nat.add_sub_cancel, h1, List.getElem?_cons_succ]
        exact ih sk i
    | succ c =>
      have h1 : (c + 1) + i * (sk + 1) = (c + i * (sk + 1)) + 1 := by ring
      simp only [takeEveryAux, h1, List.getElem?_cons_succ]
      exact ih c i

theorem takeEvery_getElem? {α : Type*} (skip : Nat) (hs : 0 < skip) (l : List α) (i : Nat) :
    (takeEvery skip l)[i]? = l[i * skip]? := by
  obtain ⟨sk, rfl⟩ : ∃ sk, skip = sk + 1 := ⟨skip - 1, by omega⟩
  simpa using takeEveryAux_getElem? sk l 0 i

/-- C1: `rescale_list` fails (the `assert`) when the list is shorter than
the target size; for a positive target size that the list meets, it
returns exactly the `size` elements at indices `0, skip, 2*skip, ...`
where `skip = len // size`. -/
theorem rescale_list_spec {α : Type*} (l : List α) (size : Nat) (hpos : 0 < size) :
    (l.length < size → ∃ e, rescale_list l size = Except.error e) ∧
    (size ≤ l.length →
      ∃ out, rescale_list l size = Except.ok out ∧ out.length = size ∧
        ∀ i, i < size → out[i]? = l[i * (l.length / size)]?) := by
  constructor
  · intro h
    exact ⟨"AssertionError", by simp [rescale_list, h]⟩
  · intro h
    have hnl : ¬ l.length < size := not_lt.mpr h
    have hsz : size ≠ 0 := Nat.pos_iff_ne_zero.mp hpos
    have hskip_pos : 0 < l.length / size := Nat.div_pos h hpos
    refine ⟨(takeEvery (l.length / size) l).take size, by simp [rescale_list, hnl, hsz], ?_, ?_⟩
    · rw [List.length_take]
      have hmul : size * (l.length / size) ≤ l.length := by
        calc size * (l.length / size) = l.length / size * size := Nat.mul_comm _ _
        _ ≤ l.length := Nat.div_mul_le_self _ _
      have hstep : (size - 1) * (l.length / size) + (l.length / size)
          = size * (l.length / size) := by
        cases size with
        | zero => exact absurd hpos (by omega)
        | succ s => simp [Nat.succ_sub_one, Nat.succ_mul]
      have hlast : (size - 1) * (l.length / size) < l.length := by omega
      have hlen : size ≤ (takeEvery (l.length / size) l).length := by
        by_contra hlt
        push_neg at hlt
        have hnone : (takeEvery (l.length / size) l)[size - 1]? = none :=
          List.getElem?_eq_none (by omega)
        rw [takeEvery_getElem? _ hskip_pos l (size - 1)] at hnone
        have := List.getElem?_eq_none_iff.mp hnone
        omega
      omega
    · intro i hi
      rw [List.getElem?_take_of_lt hi]
      exact takeEvery_getElem? _ hskip_pos l i

/-- C1 witness: the two worked examples from the spec (`L=25` and `L=23`
with target 5), the failing case `L=3 < 5`, plus the general theorem
instantiated at `L=25`. -/
theorem rescale_list_spec_witness :
    rescale_list (List.range 25) 5 = Except.ok [0, 5, 10, 15, 20] ∧
    rescale_list (List.range 23) 5 = Except.ok [0, 4, 8, 12, 16] ∧
    (∃ e, rescale_list (List.range 3) 5 = Except.error e) ∧
    (∃ out, rescale_list (List.range 25) 5 = Except.ok out ∧ out.length = 5 ∧
      ∀ i, i < 5 → out[i]? = (List.range 25)[i * ((List.range 25).length / 5)]?) :=
  ⟨by rfl, by rfl,
   (rescale_list_spec (List.range 3) 5 (by decide)).1 (by decide),
   (rescale_list_spec (List.range 25) 5 (by decide)).2 (by decide)⟩

/-- C9 counterexample: on the empty list (whose length equals a target
size of 0), `rescale_list` is not the identity: the assert passes and
`skip = 0 // 0` raises `ZeroDivisionError`. -/
theorem rescale_list_nil_fails :
    rescale_list ([] : List Nat) ([] : List Nat).length = Except.error "ZeroDivisionError" :=
  rfl

/-- C9 amended: for every nonempty list whose length equals the target
size exactly, `rescale_list` is the identity (`skip = 1`, truncation
removes nothing). -/
theorem rescale_list_identity {α : Type*} (l : List α) (h : l ≠ []) :
    rescale_list l l.length = Except.ok l := by
  have hlen : 0 < l.length := List.length_pos.mpr h
  have h1 : ¬ l.length < l.length := lt_irrefl _
  have h2 : l.length ≠ 0 := by omega
  simp only [rescale_list, if_neg h1, if_neg h2]
  rw [Nat.div_self hlen]
  have hte : takeEvery 1 l = l := by
    apply List.ext_getElem?
    intro n
    rw [takeEvery_getElem? 1 one_pos l n, Nat.mul_one]
  rw [hte, List.take_length]

/-- C9 amended witness: identity on a concrete three-element list. -/
theorem rescale_list_identity_witness :
    rescale_list [3, 1, 4] 3 = Except.ok [3, 1, 4] :=
  rescale_list_identity [3, 1, 4] (by decide)

/-! ### Class vocabulary, filter, construction -/

/-- C2: the class vocabulary is lexicographically sorted, duplicate-free,
truncation to a class limit takes the lexicographic prefix, and the
catalog's vocabulary is the one computed from the unfiltered raw manifest
(`get_classes` runs on `self.data` before `clean_data` replaces it). -/
theorem get_classes_spec (raw : List Sample) (lim : Option Nat) :
    List.Sorted (· ≤ ·) (get_classes raw lim) ∧
    (get_classes raw lim).Nodup ∧
    (∀ n, get_classes raw (some n) = (get_classes raw none).take n) ∧
    (∀ s shape, (DataSet.make s lim shape raw).classes = get_classes raw lim) := by
  have hsorted := List.sorted_insertionSort (· ≤ ·) (raw.map Sample.label).dedup
  have hnodup : (List.insertionSort (· ≤ ·) (raw.map Sample.label).dedup).Nodup :=
    (List.perm_insertionSort (· ≤ ·) (raw.map Sample.label).dedup).nodup_iff.mpr
      (List.nodup_dedup _)
  refine ⟨?_, ?_, fun n => rfl, fun s shape => rfl⟩
  · cases lim with
    | none => exact hsorted
    | some n => exact List.Pairwise.sublist (List.take_sublist _ _) hsorted
  · cases lim with
    | none => exact hnodup
    | some n => exact List.Nodup.sublist (List.take_sublist _ _) hnodup

/-- C3: a sample is kept by `clean_data` iff it is a raw sample with
`seq_length ≤ frame_count ≤ max_frames` and a label in the class
vocabulary, where `max_frames` is the hard-coded 300. -/
theorem clean_data_mem (s : Nat) (lim : Option Nat) (shape : List Nat) (raw : List Sample)
    (x : Sample) :
    (DataSet.make s lim shape raw).max_frames = 300 ∧
    (x ∈ (DataSet.make s lim shape raw).data ↔
      x ∈ raw ∧ s ≤ x.frames ∧ x.frames ≤ 300 ∧
        x.label ∈ (DataSet.make s lim shape raw).classes) := by
  refine ⟨rfl, ?_⟩
  simp only [DataSet.make, List.mem_filter, sample_filter, List.contains, Bool.and_eq_true,
    List.elem_eq_mem, decide_eq_true_eq]
  tauto

/-- C6 counterexample: constructing the catalog with `seq_length = 0` (the
only natural number `≤ 0`) does not fail: `__init__` performs no
validation of `seq_length` and returns a normal catalog. -/
theorem make_seq_zero_succeeds :
    DataSet.make 0 none [1] [⟨"train", "a", "c1", 5⟩] =
      ⟨0, none, 300, [⟨"train", "a", "c1", 5⟩], ["a"], [1]⟩ := by
  decide

/-- C6 amended: catalog construction performs no validation of
`seq_length` and always succeeds; with `seq_length = 0` it stores the
value unchanged and the frame-count lower bound of the filter is vacuous. -/
theorem make_seq_zero_filter (lim : Option Nat) (shape : List Nat) (raw : List Sample)
    (x : Sample) :
    (DataSet.make 0 lim shape raw).seq_length = 0 ∧
    (x ∈ (DataSet.make 0 lim shape raw).data ↔
      x ∈ raw ∧ x.frames ≤ 300 ∧ x.label ∈ (DataSet.make 0 lim shape raw).classes) := by
  refine ⟨rfl, ?_⟩
  simp only [DataSet.make, List.mem_filter, sample_filter, List.contains, Bool.and_eq_true,
    List.elem_eq_mem, decide_eq_true_eq, Nat.zero_le, true_and]

/-! ### One-hot encoding -/

theorem count_one_to_categorical (i n : Nat) :
    (to_categorical i n).count 1 = if i < n then 1 else 0 := by
  induction n with
  | zero => simp [to_categorical]
  | succ n ih =>
    rw [to_categorical, List.range_succ, List.map_append, List.count_append]
    rw [to_categorical] at ih
    rw [ih]
    by_cases h : n = i
    · subst h
      simp
    · by_cases h3 : i < n
      · have h4 : i < n + 1 := by omega
        simp [h, h3, h4]
      · have h4 : ¬ i < n + 1 := by omega
        simp [h, h3, h4]

/-- C4: for a label in the vocabulary, `get_class_one_hot` succeeds with a
vector of length `|classes|` containing exactly one entry equal to 1, and
the encoded index round-trips: `classes[classes.index(label)] = label`. -/
theorem get_class_one_hot_spec (classes : List String) (label : String)
    (h : label ∈ classes) :
    ∃ v, get_class_one_hot classes label = Except.ok v ∧
      v.length = classes.length ∧ v.count 1 = 1 ∧
      ∃ hlt : classes.indexOf label < classes.length,
        classes.get ⟨classes.indexOf label, hlt⟩ = label := by
  have hlt : classes.indexOf label < classes.length := List.indexOf_lt_length.mpr h
  refine ⟨to_categorical (classes.indexOf label) classes.length, ?_, ?_, ?_, hlt, ?_⟩
  · simp [get_class_one_hot, h]
  · simp [to_categorical]
  · rw [count_one_to_categorical]
    exact if_pos hlt
  · exact List.indexOf_get hlt

/-- C4 witness: the vocabulary `["a", "b", "c"]` and the label `"b"`. -/
theorem get_class_one_hot_spec_witness :
    ∃ v, get_class_one_hot ["a", "b", "c"] "b" = Except.ok v ∧
      v.length = (["a", "b", "c"] : List String).length ∧ v.count 1 = 1 ∧
      ∃ hlt : (["a", "b", "c"] : List String).indexOf "b"
          < (["a", "b", "c"] : List String).length,
        (["a", "b", "c"] : List String).get
          ⟨(["a", "b", "c"] : List String).indexOf "b", hlt⟩ = "b" :=
  get_class_one_hot_spec ["a", "b", "c"] "b" (by decide)

/-! ### Batch drawing (`random.sample` and one generator iteration) -/

theorem except_bind_ok {ε α β : Type} (a : α) (f : α → Except ε β) :
    (Except.ok a >>= f) = f a := rfl

theorem except_bind_error {ε α β : Type} (e : ε) (f : α → Except ε β) :
    ((Except.error e : Except ε α) >>= f) = Except.error e := rfl

theorem except_pure {ε α : Type} (a : α) : (pure a : Except ε α) = Except.ok a := rfl

theorem get_cons_eraseIdx_perm {α : Type*} :
    ∀ (l : List α) (j : Nat) (h : j < l.length),
      List.Perm (l.get ⟨j, h⟩ :: l.eraseIdx j) l
  | [], j, h => absurd h (by simp)
  | a :: l, 0, _ => by simp
  | a :: l, j + 1, h => by
    have hj : j < l.length := Nat.lt_of_succ_lt_succ (by simpa using h)
    have ih := get_cons_eraseIdx_perm l j hj
    exact (List.Perm.swap a _ _).trans (ih.cons a)

theorem sampleDraw_length {α : Type*} :
    ∀ (pool : List α) (k : Nat) (rand : Nat → Nat) (step : Nat), k ≤ pool.length →
      (sampleDraw pool k rand step).length = k
  | _, 0, _, _, _ => by simp [sampleDraw]
  | [], _ + 1, _, _, h => absurd h (by simp)
  | a :: l, k + 1, rand, step, h => by
    have hpos : 0 < (a :: l).length := by simp
    have hk : k ≤ ((a :: l).eraseIdx (rand step % (a :: l).length)).length := by
      rw [List.length_eraseIdx_of_lt (Nat.mod_lt _ hpos)]
      simp only [List.length_cons] at h ⊢
      omega
    have ih := sampleDraw_length ((a :: l).eraseIdx (rand step % (a :: l).length))
      k rand (step + 1) hk
    simp only [List.length_cons] at ih
    simp only [sampleDraw, List.length_cons]
    omega

theorem sampleDraw_subperm {α : Type*} :
    ∀ (pool : List α) (k : Nat) (rand : Nat → Nat) (step : Nat),
      List.Subperm (sampleDraw pool k rand step) pool
  | _, 0, _, _ => by simp [sampleDraw]
  | [], _ + 1, _, _ => by simp [sampleDraw]
  | a :: l, k + 1, rand, step => by
    have hpos : 0 < (a :: l).length := by simp
    simp only [sampleDraw]
    have ih := sampleDraw_subperm
      ((a :: l).eraseIdx (rand step % (a :: l).length)) k rand (step + 1)
    have hperm := get_cons_eraseIdx_perm (a :: l) (rand step % (a :: l).length)
      (Nat.mod_lt _ hpos)
    exact ((List.subperm_cons _).mpr ih).trans hperm.subperm

theorem randomSample_spec {α : Type*} (population : List α) (k : Nat) (rand : Nat → Nat) :
    (population.length < k → randomSample population k rand = Except.error "ValueError") ∧
    (k ≤ population.length →
      ∃ out, randomSample population k rand = Except.ok out ∧
        out.length = k ∧ List.Subperm out population) := by
  constructor
  · intro h
    simp [randomSample, h]
  · intro h
    have hnl : ¬ population.length < k := not_lt.mpr h
    exact ⟨_, by simp [randomSample, hnl], sampleDraw_length population k rand 0 h,
      sampleDraw_subperm population k rand 0⟩

theorem mapM_except_spec {α β : Type} (f : α → Except String β) (g : β → α)
    (hg : ∀ a b, f a = Except.ok b → g b = a) :
    ∀ (l : List α) (out : List β), l.mapM f = Except.ok out →
      out.length = l.length ∧ out.map g = l
  | [], out, h => by
    rw [List.mapM_nil, except_pure] at h
    injection h with h
    subst h
    exact ⟨rfl, rfl⟩
  | a :: l, out, h => by
    rw [List.mapM_cons] at h
    cases hfa : f a with
    | error e => rw [hfa, except_bind_error] at h; simp at h
    | ok b =>
      rw [hfa, except_bind_ok] at h
      cases hml : l.mapM f with
      | error e => rw [hml, except_bind_error] at h; simp at h
      | ok bs =>
        rw [hml, except_bind_ok, except_pure] at h
        injection h with h
        subst h
        obtain ⟨h1, h2⟩ := mapM_except_spec f g hg l bs hml
        exact ⟨by simp [h1], by simp [h2, hg a b hfa]⟩

/-- C5: one generator iteration with `batch_size` larger than the
partition fails with `random.sample`'s `ValueError` (never yielding a
short batch), and on success produces exactly `batch_size` samples that
are drawn from the partition without replacement (a sub-multiset of it). -/
theorem nextBatch_spec (ds : DataSet) (data : List Sample) (bs : Nat) (rand : Nat → Nat)
    (framesOf : Sample → List String) (dec : String → List Nat) :
    (data.length < bs →
      nextBatch ds ⟨data, bs⟩ rand framesOf dec = Except.error "ValueError") ∧
    (∀ out, nextBatch ds ⟨data, bs⟩ rand framesOf dec = Except.ok out →
      out.length = bs ∧ List.Subperm (out.map (fun t => t.1)) data) := by
  constructor
  · intro h
    simp only [nextBatch]
    rw [(randomSample_spec data bs rand).1 h, except_bind_error]
  · intro out h
    by_cases hlen : data.length < bs
    · rw [show nextBatch ds ⟨data, bs⟩ rand framesOf dec = Except.error "ValueError" from by
        simp only [nextBatch]
        rw [(randomSample_spec data bs rand).1 hlen, except_bind_error]] at h
      simp at h
    · push_neg at hlen
      obtain ⟨samples, hs, hlen2, hsub⟩ := (randomSample_spec data bs rand).2 hlen
      simp only [nextBatch] at h
      rw [hs, except_bind_ok] at h
      have hfst : ∀ (a : Sample) (b : Sample × List (List Nat) × List Nat),
          (do
            let sampled ← rescale_list (framesOf a) ds.seq_length
            let y ← get_class_one_hot ds.classes a.label
            pure (a, build_image_sequence dec sampled, y)) = Except.ok b → b.1 = a := by
        intro a b hab
        cases hr : rescale_list (framesOf a) ds.seq_length with
        | error e => rw [hr, except_bind_error] at hab; simp at hab
        | ok sampled =>
          rw [hr, except_bind_ok] at hab
          cases ho : get_class_one_hot ds.classes a.label with
          | error e => rw [ho, except_bind_error] at hab; simp at hab
          | ok y =>
            rw [ho, except_bind_ok, except_pure] at hab
            injection hab with hab
            rw [← hab]
      obtain ⟨h1, h2⟩ := mapM_except_spec _ (fun t => t.1) hfst samples out h
      exact ⟨by rw [h1, hlen2], by rw [h2]; exact hsub⟩

/-- C5 witness: a one-sample partition; `batch_size = 2` fails, and
`batch_size = 1` succeeds with one sample drawn from the partition. -/
theorem nextBatch_spec_witness :
    nextBatch (DataSet.make 1 none [1] [⟨"train", "a", "c1", 5⟩])
        ⟨[⟨"train", "a", "c1", 5⟩], 2⟩ (fun _ => 0) (fun _ => ["f1", "f2"]) (fun _ => [0])
      = Except.error "ValueError" ∧
    ([((⟨"train", "a", "c1", 5⟩ : Sample), [[0]], [1])].length = 1 ∧
      List.Subperm ([((⟨"train", "a", "c1", 5⟩ : Sample), [[0]], [1])].map (fun t => t.1))
        [⟨"train", "a", "c1", 5⟩]) :=
  ⟨(nextBatch_spec _ _ 2 _ _ _).1 (by decide),
   (nextBatch_spec (DataSet.make 1 none [1] [⟨"train", "a", "c1", 5⟩])
      [⟨"train", "a", "c1", 5⟩] 1 (fun _ => 0) (fun _ => ["f1", "f2"]) (fun _ => [0])).2
     [(⟨"train", "a", "c1", 5⟩, [[0]], [1])] (by rfl)⟩

/-! ### Generator construction and partition selection -/

/-- C7 counterexample: over a catalog with no samples, constructing a
generator for the (empty) train partition does not fail: the source has no
emptiness check, and simply yields a generator over the empty partition. -/
theorem frame_generator_empty_construct_ok :
    frame_generator (DataSet.make 1 none [1] []) 1 "train" = ⟨[], 1⟩ := by
  decide

/-- C7 amended: generator construction resolves the partition once (train
for `'train'`, test otherwise) and succeeds even when that partition is
empty; only the first batch request with a positive batch size fails, with
the insufficient-data `ValueError` raised by `random.sample`. -/
theorem frame_generator_empty_partition (ds : DataSet) (bs : Nat) (tt : String)
    (rand : Nat → Nat) (framesOf : Sample → List String) (dec : String → List Nat)
    (hbs : 0 < bs) (hempty : (frame_generator ds bs tt).data = []) :
    (frame_generator ds bs tt).data
        = (if tt = "train" then ds.split_train_test.1 else ds.split_train_test.2) ∧
    nextBatch ds (frame_generator ds bs tt) rand framesOf dec
        = Except.error "ValueError" := by
  refine ⟨rfl, ?_⟩
  simp only [nextBatch]
  rw [hempty]
  have hb : (frame_generator ds bs tt).batch_size = bs := rfl
  rw [hb]
  rw [(randomSample_spec ([] : List Sample) bs rand).1 (by simpa using hbs),
    except_bind_error]

/-- C7 amended witness: an empty catalog, `batch_size = 1`. -/
theorem frame_generator_empty_partition_witness :
    (frame_generator (DataSet.make 1 none [1] []) 1 "train").data
        = (if "train" = "train" then (DataSet.make 1 none [1] []).split_train_test.1
           else (DataSet.make 1 none [1] []).split_train_test.2) ∧
    nextBatch (DataSet.make 1 none [1] [])
        (frame_generator (DataSet.make 1 none [1] []) 1 "train")
        (fun _ => 0) (fun _ => []) (fun _ => [])
      = Except.error "ValueError" :=
  frame_generator_empty_partition (DataSet.make 1 none [1] []) 1 "train"
    (fun _ => 0) (fun _ => []) (fun _ => []) (by decide) (by rfl)

/-- C10: any partition name other than exactly `"train"` — including the
typo `"Train"` and the unsupported `"validation"` — silently selects the
test partition instead of failing. -/
theorem frame_generator_default_test (ds : DataSet) (bs : Nat) (tt : String)
    (h : tt ≠ "train") :
    (frame_generator ds bs tt).data = ds.split_train_test.2 := by
  simp [frame_generator, h]

/-- C10 witness: `"validation"` and `"Train"` both draw from the test
partition of a catalog whose test partition is one concrete sample. -/
theorem frame_generator_default_test_witness :
    (frame_generator (DataSet.make 1 none [1] [⟨"test", "a", "c1", 5⟩]) 1 "validation").data
        = (DataSet.make 1 none [1] [⟨"test", "a", "c1", 5⟩]).split_train_test.2 ∧
    (frame_generator (DataSet.make 1 none [1] [⟨"test", "a", "c1", 5⟩]) 1 "Train").data
        = (DataSet.make 1 none [1] [⟨"test", "a", "c1", 5⟩]).split_train_test.2 ∧
    (DataSet.make 1 none [1] [⟨"test", "a", "c1", 5⟩]).split_train_test.2
        = [⟨"test", "a", "c1", 5⟩] :=
  ⟨frame_generator_default_test _ 1 "validation" (by decide),
   frame_generator_default_test _ 1 "Train" (by decide),
   by decide⟩

/-! ### Prediction ranking (`print_class_from_prediction`) -/

theorem dictUpdate_append (d : List (String × ℚ)) (k : String) (v : ℚ)
    (h : k ∉ d.map Prod.fst) : dictUpdate d k v = d ++ [(k, v)] := by
  induction d with
  | nil => rfl
  | cons kv d ih =>
    obtain ⟨k0, v0⟩ := kv
    simp only [List.map_cons, List.mem_cons, not_or] at h
    simp only [dictUpdate, if_neg (Ne.symm h.1), List.cons_append]
    rw [ih h.2]

theorem foldl_dictUpdate (pairs : List (String × ℚ)) :
    ∀ (d : List (String × ℚ)), (pairs.map Prod.fst).Nodup →
      (∀ k ∈ pairs.map Prod.fst, k ∉ d.map Prod.fst) →
      pairs.foldl (fun d kv => dictUpdate d kv.1 kv.2) d = d ++ pairs := by
  induction pairs with
  | nil => intro d _ _; simp
  | cons kv ps ih =>
    intro d hnd hdisj
    obtain ⟨k, v⟩ := kv
    simp only [List.map_cons, List.nodup_cons] at hnd
    have hk : k ∉ d.map Prod.fst := hdisj k (by simp)
    simp only [List.foldl_cons]
    rw [dictUpdate_append d k v hk]
    rw [ih (d ++ [(k, v)]) hnd.2 ?_]
    · simp
    · intro k2 hk2
      simp only [List.map_append, List.mem_append, not_or]
      refine ⟨hdisj k2 (by simp [hk2]), ?_⟩
      simp only [List.map_cons, List.map_nil, List.mem_singleton]
      intro heq
      rw [heq] at hk2
      exact hnd.1 hk2

theorem filter_orderedInsert_pos (q : (String × ℚ) → Bool)
    (hq : ∀ x y, q x = true → q y = true → predGE x y)
    (a : String × ℚ) (ha : q a = true) :
    ∀ l : List (String × ℚ),
      (List.orderedInsert predGE a l).filter q = a :: l.filter q := by
  intro l
  induction l with
  | nil => simp [List.orderedInsert, List.filter, ha]
  | cons b l ih =>
    by_cases h : predGE a b
    · simp [List.orderedInsert, h, List.filter_cons, ha]
    · have hqb : q b = false := by
        cases hb : q b with
        | false => rfl
        | true => exact absurd (hq a b ha hb) h
      simp [List.orderedInsert, h, List.filter_cons, hqb, ih]

theorem filter_orderedInsert_neg (q : (String × ℚ) → Bool)
    (a : String × ℚ) (ha : q a = false) :
    ∀ l : List (String × ℚ),
      (List.orderedInsert predGE a l).filter q = l.filter q := by
  intro l
  induction l with
  | nil => simp [List.orderedInsert, List.filter, ha]
  | cons b l ih =>
    by_cases h : predGE a b
    · simp [List.orderedInsert, h, List.filter_cons, ha]
    · simp [List.orderedInsert, h, List.filter_cons, ih]

/-- Stability of the sort stage: sorting never reorders entries that carry
the same score, expressed as commutation with every score-class filter. -/
theorem filter_insertionSort (q : (String × ℚ) → Bool)
    (hq : ∀ x y, q x = true → q y = true → predGE x y) :
    ∀ l : List (String × ℚ),
      (List.insertionSort predGE l).filter q = l.filter q := by
  intro l
  induction l with
  | nil => rfl
  | cons a l ih =>
    show (List.orderedInsert predGE a (List.insertionSort predGE l)).filter q = _
    cases ha : q a with
    | true =>
      rw [filter_orderedInsert_pos q hq a ha, ih]
      simp [List.filter_cons, ha]
    | false =>
      rw [filter_orderedInsert_neg q a ha, ih]
      simp [List.filter_cons, ha]

theorem takeWhile_stop {α : Type*} (p : α → Bool) :
    ∀ l : List α, (l.takeWhile p).length < l.length →
      ∃ b, l[(l.takeWhile p).length]? = some b ∧ p b = false := by
  intro l
  induction l with
  | nil => intro h; simp at h
  | cons a l ih =>
    intro h
    cases ha : p a with
    | false =>
      refine ⟨a, ?_, ha⟩
      have hn : ¬ (p a = true) := by simp [ha]
      rw [List.takeWhile_cons_of_neg hn]
      simp
    | true =>
      rw [List.takeWhile_cons_of_pos ha] at h ⊢
      simp only [List.length_cons, Nat.succ_lt_succ_iff] at h
      obtain ⟨b, hb, hpb⟩ := ih h
      exact ⟨b, by simpa using hb, hpb⟩

/-- C8: for a duplicate-free vocabulary (the shape `get_classes` always
produces) and at least as many scores as labels,
`print_class_from_prediction` pairs each score with the label at the same
positional index, sorts the pairs descending by score (a permutation,
sorted under `predGE`, commuting with every same-score filter — i.e. a
stable tie-break), and prints a prefix of the sorted list of at most `n`
all-nonzero entries, stopping at `n`, at the end, or at the first zero
score. -/
theorem print_class_from_prediction_spec (predictions : List ℚ) (classes : List String)
    (n : Nat) (hnd : classes.Nodup) (hlen : classes.length ≤ predictions.length) :
    ∃ out, print_class_from_prediction classes predictions n = Except.ok out ∧
      (∀ p ∈ out, ∃ i : Nat, classes[i]? = some p.1 ∧ predictions[i]? = some p.2) ∧
      List.Perm (List.insertionSort predGE (classes.zip predictions))
        (classes.zip predictions) ∧
      List.Sorted predGE (List.insertionSort predGE (classes.zip predictions)) ∧
      (∀ s : ℚ, (List.insertionSort predGE (classes.zip predictions)).filter
            (fun p => decide (p.2 = s))
          = (classes.zip predictions).filter (fun p => decide (p.2 = s))) ∧
      (∃ rest, List.insertionSort predGE (classes.zip predictions) = out ++ rest) ∧
      out.length ≤ n ∧
      (∀ p ∈ out, p.2 ≠ 0) ∧
      (out.length = n ∨ out.length = (classes.zip predictions).length ∨
        ∃ pr, (List.insertionSort predGE (classes.zip predictions))[out.length]? = some pr ∧
          pr.2 = 0) := by
  have hkeys : (classes.zip predictions).map Prod.fst = classes :=
    List.map_fst_zip classes predictions hlen
  have hlp : (classes.zip predictions).foldl (fun d kv => dictUpdate d kv.1 kv.2) []
      = classes.zip predictions := by
    rw [foldl_dictUpdate (classes.zip predictions) [] (by rw [hkeys]; exact hnd)
      (by intro k _; simp)]
    simp
  have hok : print_class_from_prediction classes predictions n
      = Except.ok (((List.insertionSort predGE (classes.zip predictions)).take n).takeWhile
          (fun p => decide (p.2 ≠ 0))) := by
    simp only [print_class_from_prediction, hlp]
    rw [if_pos hlen]
  refine ⟨_, hok, ?_, List.perm_insertionSort _ _, List.sorted_insertionSort _ _,
    ?_, ?_, ?_, ?_, ?_⟩
  · intro p hp
    have h1 : p ∈ (List.insertionSort predGE (classes.zip predictions)).take n :=
      (List.takeWhile_sublist _).subset hp
    have h2 : p ∈ List.insertionSort predGE (classes.zip predictions) :=
      (List.take_sublist _ _).subset h1
    have hmem : p ∈ classes.zip predictions := by simpa using h2
    obtain ⟨i, hi⟩ := List.mem_iff_getElem?.mp hmem
    exact ⟨i, (List.getElem?_zip_eq_some.mp hi).1, (List.getElem?_zip_eq_some.mp hi).2⟩
  · intro s
    apply filter_insertionSort
    intro x y hx hy
    simp only [decide_eq_true_eq] at hx hy
    show y.2 ≤ x.2
    rw [hx, hy]
  · have hsplit : (List.insertionSort predGE (classes.zip predictions)).take n
        = ((List.insertionSort predGE (classes.zip predictions)).take n).takeWhile
            (fun p => decide (p.2 ≠ 0))
          ++ ((List.insertionSort predGE (classes.zip predictions)).take n).dropWhile
            (fun p => decide (p.2 ≠ 0)) :=
      (List.takeWhile_append_dropWhile _ _).symm
    refine ⟨((List.insertionSort predGE (classes.zip predictions)).take n).dropWhile
        (fun p => decide (p.2 ≠ 0))
      ++ (List.insertionSort predGE (classes.zip predictions)).drop n, ?_⟩
    calc List.insertionSort predGE (classes.zip predictions)
        = (List.insertionSort predGE (classes.zip predictions)).take n
          ++ (List.insertionSort predGE (classes.zip predictions)).drop n :=
          (List.take_append_drop n _).symm
      _ = _ := by rw [← List.append_assoc, ← hsplit]
  · exact ((List.takeWhile_sublist _).length_le).trans (List.length_take_le n _)
  · intro p hp
    have := List.mem_takeWhile_imp hp
    simpa using this
  · by_cases hl : (((List.insertionSort predGE (classes.zip predictions)).take n).takeWhile
        (fun p => decide (p.2 ≠ 0))).length
      < ((List.insertionSort predGE (classes.zip predictions)).take n).length
    · right; right
      obtain ⟨b, hb, hpb⟩ := takeWhile_stop _ _ hl
      have hlt : (((List.insertionSort predGE (classes.zip predictions)).take n).takeWhile
          (fun p => decide (p.2 ≠ 0))).length < n :=
        lt_of_lt_of_le hl (List.length_take_le n _)
      rw [List.getElem?_take_of_lt hlt] at hb
      refine ⟨b, hb, ?_⟩
      simpa using hpb
    · push_neg at hl
      have heq : (((List.insertionSort predGE (classes.zip predictions)).take n).takeWhile
          (fun p => decide (p.2 ≠ 0))).length
          = ((List.insertionSort predGE (classes.zip predictions)).take n).length :=
        le_antisymm (List.takeWhile_sublist _).length_le hl
      rw [List.length_take] at heq
      have hsl : (List.insertionSort predGE (classes.zip predictions)).length
          = (classes.zip predictions).length := (List.perm_insertionSort _ _).length_eq
      rcases Nat.le_total n (List.insertionSort predGE (classes.zip predictions)).length
        with hc | hc
      · left
        rw [heq, Nat.min_eq_left hc]
      · right; left
        rw [heq, Nat.min_eq_right hc, hsl]

/-- C8 witness: the spec's example
`TopPredictions([0.9, 0.1, 0.0, 0.0], [a, b, c, d], 5) = [(a, 0.9), (b, 0.1)]`,
plus the general theorem instantiated there. -/
theorem print_class_from_prediction_spec_witness :
    print_class_from_prediction ["a", "b", "c", "d"] [mkRat 9 10, mkRat 1 10, 0, 0] 5
      = Except.ok [("a", mkRat 9 10), ("b", mkRat 1 10)] ∧
    (∃ out, print_class_from_prediction ["a", "b", "c", "d"] [mkRat 9 10, mkRat 1 10, 0, 0] 5
        = Except.ok out ∧
      (∀ p ∈ out, ∃ i : Nat, (["a", "b", "c", "d"] : List String)[i]? = some p.1 ∧
        ([mkRat 9 10, mkRat 1 10, 0, 0] : List ℚ)[i]? = some p.2) ∧
      List.Perm
        (List.insertionSort predGE ((["a", "b", "c", "d"] : List String).zip
          ([mkRat 9 10, mkRat 1 10, 0, 0] : List ℚ)))
        ((["a", "b", "c", "d"] : List String).zip ([mkRat 9 10, mkRat 1 10, 0, 0] : List ℚ)) ∧
      List.Sorted predGE (List.insertionSort predGE ((["a", "b", "c", "d"] : List String).zip
        ([mkRat 9 10, mkRat 1 10, 0, 0] : List ℚ))) ∧
      (∀ s : ℚ, (List.insertionSort predGE ((["a", "b", "c", "d"] : List String).zip
            ([mkRat 9 10, mkRat 1 10, 0, 0] : List ℚ))).filter (fun p => decide (p.2 = s))
          = ((["a", "b", "c", "d"] : List String).zip
              ([mkRat 9 10, mkRat 1 10, 0, 0] : List ℚ)).filter (fun p => decide (p.2 = s))) ∧
      (∃ rest, List.insertionSort predGE ((["a", "b", "c", "d"] : List String).zip
          ([mkRat 9 10, mkRat 1 10, 0, 0] : List ℚ)) = out ++ rest) ∧
      out.length ≤ 5 ∧
      (∀ p ∈ out, p.2 ≠ 0) ∧
      (out.length = 5 ∨
        out.length = ((["a", "b", "c", "d"] : List String).zip
          ([mkRat 9 10, mkRat 1 10, 0, 0] : List ℚ)).length ∨
        ∃ pr, (List.insertionSort predGE ((["a", "b", "c", "d"] : List String).zip
            ([mkRat 9 10, mkRat 1 10, 0, 0] : List ℚ)))[out.length]? = some pr ∧ pr.2 = 0)) :=
  ⟨by decide,
   print_class_from_prediction_spec [mkRat 9 10, mkRat 1 10, 0, 0] ["a", "b", "c", "d"] 5
     (by decide) (by decide)⟩

end Producer
